import Mathlib

/-!
Verification of the change-detection and dissemination subsystem of the
markdown-parser service, shallowly embedded from the Go sources:
  * `pkg/diff/block_diff.go`   — block-level diff (`BlockDiffer`) and
    line-level LCS diff (`LineDiffer`)
  * `internal/parser/goldmark.go` — single-line heuristic classifier
    (`DetectNotionSyntax`) and the `Parse` / `ParseIncremental` entry points
  * `internal/parser` incremental parser — `ParseLine`
  * `internal/websocket` hub — `broadcastToDocument` fan-out with
    drop-on-backpressure

Embedding conventions:
  * Go `map[string]*Block` snapshots are embedded as association lists
    `List (String × Block)`; the Go map invariant (unique keys) appears as a
    `Nodup` hypothesis where a proof needs it.  Go map iteration order is
    unspecified; the list order is one admissible order, and all theorems
    proved about change lists are order-insensitive (membership, emptiness).
  * `crypto/md5` is out of scope; `computeBlockHash` is embedded as the exact
    pre-image string handed to `md5.Sum` (`fmt.Sprintf("%s|%s|%d|%s", ...)`),
    i.e. md5 is modelled as collision-free.  Equality of embedded hashes
    coincides with equality of the Go format strings.
  * Go `int` fields are embedded as `Int`.
  * The goldmark renderer is an out-of-scope external collaborator (per the
    spec); functions that call it take its behaviour as a parameter.
-/

namespace MarkdownParser

/-- `models.Position` from `internal/models/types.go`
(`Start`, `End`, `Line`; the Go field `End` is called `stop` here because
`end` is a Lean keyword). -/
structure Position where
  start : Int
  stop : Int
  line : Int
deriving DecidableEq, Repr

/-- `models.Block` from `internal/models/types.go`: id, type (open string in
Go), heading/list level, raw markdown content, rendered HTML, source
position, and recursively owned children. -/
structure Block where
  id : String
  type : String
  level : Int
  content : String
  html : String
  position : Position
  children : List Block
deriving Repr

/-- `models.BlockChange` from `internal/models/types.go`: change kind
(`added` / `modified` / `removed`), block id, and the block payload.  The Go
field is a pointer that every construction site in `ComputeDiff` fills in,
so it is embedded as a plain `Block`. -/
structure BlockChange where
  type : String
  blockID : String
  block : Block
deriving Repr

/-- A snapshot: the embedding of Go's `map[string]*Block` as an association
list from block id to block. -/
abbrev Snapshot := List (String × Block)

/-- Map indexing `m[blockID]` on a snapshot: first binding of the key, if
any. -/
def Snapshot.find (m : Snapshot) (k : String) : Option Block :=
  (List.find? (fun p => p.1 = k) m).map Prod.snd

/-- `BlockDiffer` from `pkg/diff/block_diff.go`: holds the previous snapshot
as mutable state (here threaded explicitly). -/
structure BlockDiffer where
  previousBlocks : Snapshot

/-- `NewBlockDiffer`: starts from an empty previous snapshot. -/
def NewBlockDiffer : BlockDiffer := ⟨[]⟩

/-- `computeBlockHash` from `pkg/diff/block_diff.go`: the hash pre-image
`fmt.Sprintf("%s|%s|%d|%s", block.Type, block.Content, block.Level,
block.HTML)`.  md5 is modelled as collision-free, so hash comparison is
comparison of these strings.  Position and children are deliberately not
part of the hash. -/
def computeBlockHash (block : Block) : String :=
  block.type ++ "|" ++ block.content ++ "|" ++ toString block.level ++ "|" ++ block.html

/-- `hasBlockChanged` from `pkg/diff/block_diff.go`: hash inequality. -/
def hasBlockChanged (oldBlock newBlock : Block) : Bool :=
  computeBlockHash oldBlock ≠ computeBlockHash newBlock

/-- `copyBlock` from `pkg/diff/block_diff.go`: field-by-field copy with the
children copied recursively (the Go `nil` receiver case cannot arise in the
pure embedding; `attach` only carries the termination evidence for the
recursion through the children list). -/
def copyBlock (block : Block) : Block :=
  { id := block.id
    type := block.type
    level := block.level
    content := block.content
    html := block.html
    position := block.position
    children := block.children.attach.map (fun c => copyBlock c.1) }
termination_by sizeOf block
decreasing_by
  have h := List.sizeOf_lt_of_mem c.2
  cases block
  simp at h ⊢
  omega

/-- `copyBlocks` from `pkg/diff/block_diff.go`: copy every binding of the
snapshot. -/
def copyBlocks (blocks : Snapshot) : Snapshot :=
  blocks.map (fun p => (p.1, copyBlock p.2))

/-- The change list computed by `ComputeDiff` in `pkg/diff/block_diff.go`
from a previous and a new snapshot: one pass over the new snapshot emitting
`added` (id absent from previous) or `modified` (present, hash differs),
then one pass over the previous snapshot emitting `removed` for ids absent
from the new snapshot, carrying the previous block. -/
def computeDiffChanges (prev new : Snapshot) : List BlockChange :=
  (new.filterMap fun p =>
    match Snapshot.find prev p.1 with
    | some oldBlock =>
        if hasBlockChanged oldBlock p.2 then
          some { type := "modified", blockID := p.1, block := p.2 }
        else
          none
    | none => some { type := "added", blockID := p.1, block := p.2 })
  ++ (prev.filterMap fun p =>
    if (List.find? (fun q => q.1 = p.1) new).isSome then
      none
    else
      some { type := "removed", blockID := p.1, block := p.2 })

/-- `ComputeDiff` from `pkg/diff/block_diff.go`: returns the change list and
the differ with its stored previous snapshot replaced by a deep copy of the
new snapshot. -/
def ComputeDiff (d : BlockDiffer) (newBlocks : Snapshot) :
    List BlockChange × BlockDiffer :=
  (computeDiffChanges d.previousBlocks newBlocks, ⟨copyBlocks newBlocks⟩)

/-- `LineChange` from `pkg/diff/block_diff.go`: change kind
(`added` / `removed` / `unchanged`), 1-based line number (relative to the
new sequence for `added`/`unchanged`, to the old sequence for `removed`),
and line content. -/
structure LineChange where
  type : String
  lineNum : Int
  content : String
deriving DecidableEq, Repr

/-- Embedding of Go `strings.Split(s, "\n")`: split the character sequence
on every `'\n'`; the empty string yields `[""]`, exactly as in Go. -/
def splitLines (s : String) : List String :=
  (s.data.splitOn '\n').map String.mk

/-- Joining lines back with `"\n"` (the inverse reading used by the
round-trip contract): contents interleaved with single newlines. -/
def joinLines (ls : List String) : String :=
  String.mk (List.intercalate ['\n'] (ls.map String.data))

/-- The LCS dynamic-programming table of `computeLCS` in
`pkg/diff/block_diff.go`: `lcsTable old new i j` is the value `dp[i][j]`,
the LCS length of the first `i` old lines and the first `j` new lines
(`dp[0][j] = dp[i][0] = 0` from the zero-initialised table; out-of-range
indexing cannot occur for `i ≤ |old|`, `j ≤ |new|`, so `getD` defaults are
irrelevant). -/
def lcsTable (oldLines newLines : List String) : Nat → Nat → Nat
  | 0, _ => 0
  | _ + 1, 0 => 0
  | i + 1, j + 1 =>
    if oldLines.getD i "" = newLines.getD j "" then
      lcsTable oldLines newLines i j + 1
    else
      max (lcsTable oldLines newLines i (j + 1)) (lcsTable oldLines newLines (i + 1) j)

/-- The backtracking loop of `computeLCS` in `pkg/diff/block_diff.go`,
expressed as the list of changes produced for the prefix pair
`(old[0..i), new[0..j))`: the Go loop walks from `(oldLen, newLen)` down to
`(0, 0)` prepending one entry per step, which builds exactly this list.
At `(i+1, j+1)`: equal lines → `unchanged` (diagonal); otherwise `added`
when `dp[i][j-1] >= dp[i-1][j]` (Go indices; ties favour `added`), else
`removed`.  With `j = 0` only `removed` steps remain, with `i = 0` only
`added` steps. -/
def backtrack (oldLines newLines : List String) : Nat → Nat → List LineChange
  | 0, 0 => []
  | 0, j + 1 =>
    backtrack oldLines newLines 0 j ++
      [{ type := "added", lineNum := (j : Int) + 1, content := newLines.getD j "" }]
  | i + 1, 0 =>
    backtrack oldLines newLines i 0 ++
      [{ type := "removed", lineNum := (i : Int) + 1, content := oldLines.getD i "" }]
  | i + 1, j + 1 =>
    if oldLines.getD i "" = newLines.getD j "" then
      backtrack oldLines newLines i j ++
        [{ type := "unchanged", lineNum := (j : Int) + 1, content := newLines.getD j "" }]
    else if lcsTable oldLines newLines (i + 1) j ≥ lcsTable oldLines newLines i (j + 1) then
      backtrack oldLines newLines (i + 1) j ++
        [{ type := "added", lineNum := (j : Int) + 1, content := newLines.getD j "" }]
    else
      backtrack oldLines newLines i (j + 1) ++
        [{ type := "removed", lineNum := (i : Int) + 1, content := oldLines.getD i "" }]

/-- `computeLCS` from `pkg/diff/block_diff.go`: fill the table, backtrack
from `(oldLen, newLen)`. -/
def computeLCS (oldLines newLines : List String) : List LineChange :=
  backtrack oldLines newLines oldLines.length newLines.length

/-- `ComputeLineDiff` from `pkg/diff/block_diff.go`: split both texts on
newlines and run the LCS diff. -/
def ComputeLineDiff (oldContent newContent : String) : List LineChange :=
  computeLCS (splitLines oldContent) (splitLines newContent)

/-- The expected line numbering `[1, 2, ..., j]` of the entries relative to
one of the two sequences. -/
def lineNums (j : Nat) : List Int :=
  (List.range j).map (fun k : Nat => (k : Int) + 1)

/-- The `added ∪ unchanged` filter of the round-trip contract. -/
def isNewSide (c : LineChange) : Bool :=
  c.type == "added" || c.type == "unchanged"

/-- The `removed ∪ unchanged` filter of the round-trip contract. -/
def isOldSide (c : LineChange) : Bool :=
  c.type == "removed" || c.type == "unchanged"

/-- Go `unicode.IsSpace` on the Latin-1 range (the code points Go lists
explicitly: `\\t \\n \\v \\f \\r` space, NEL, NBSP); the higher-plane
White_Space table of the out-of-scope `unicode` package is not needed by
any input considered here. -/
def goIsSpace (c : Char) : Bool :=
  c == ' ' || c == '\t' || c == '\n' || c == Char.ofNat 0x0B ||
    c == Char.ofNat 0x0C || c == '\r' || c == Char.ofNat 0x85 || c == Char.ofNat 0xA0

/-- Embedding of Go `strings.TrimSpace`: drop leading and trailing
whitespace characters. -/
def trimSpace (s : String) : String :=
  ⟨((s.data.dropWhile goIsSpace).reverse.dropWhile goIsSpace).reverse⟩

/-- Embedding of Go `strings.HasPrefix`. -/
def hasPre (s p : String) : Bool :=
  p.data.isPrefixOf s.data

/-- Split a character sequence at the first occurrence of (a non-empty)
`sep`: the text before it and the text after it, or `none` when `sep` does
not occur. -/
def splitFirst (sep : List Char) : List Char → Option (List Char × List Char)
  | [] => none
  | c :: rest =>
    if sep.isPrefixOf (c :: rest) then some ([], (c :: rest).drop sep.length)
    else
      match splitFirst sep rest with
      | some (pre, post) => some (c :: pre, post)
      | none => none

/-- Embedding of Go `strings.TrimPrefix(s, p)`: drop `p` when it is a
prefix, otherwise return `s` unchanged. -/
def trimPre (p s : String) : String :=
  if p.data.isPrefixOf s.data then ⟨s.data.drop p.data.length⟩ else s

/-- Embedding of Go `strings.SplitN(s, sep, 2)` for non-empty `sep`: the
text before the first occurrence of `sep` and the remainder, or `[s]` when
`sep` does not occur. -/
def splitN2 (s sep : String) : List String :=
  match splitFirst sep.data s.data with
  | some (pre, post) => [⟨pre⟩, ⟨post⟩]
  | none => [s]

/-- Embedding of Go `strings.Contains` (non-empty substring). -/
def containsSub (s sub : String) : Bool :=
  (splitFirst sub.data s.data).isSome

/-- Embedding of Go `strings.Replace(s, old, new, 1)`: replace the first
occurrence of `old` (if any) by `new`. -/
def replaceFirst (s old new : String) : String :=
  match splitFirst old.data s.data with
  | some (pre, post) => ⟨pre⟩ ++ new ++ ⟨post⟩
  | none => s

/-- Go\'s `len(trimmed) > 0 && unicode.IsDigit(rune(trimmed[0]))`: the first
character is an ASCII digit (reading the first byte as Go does and reading
the first character agree on every input: no UTF-8 continuation or leader
byte is a digit, and no Latin-1 code point above 0x7F is in category Nd). -/
def firstIsDigit (s : String) : Bool :=
  match s.data with
  | [] => false
  | c :: _ => c.isDigit

/-- `DetectNotionSyntax` from `internal/parser/goldmark.go`: trim the line,
then apply the rules in source order — headings `"# "`..`"###### "`,
checkbox (`"- [ ]"` / `"- [x]"`, checked before list detection), unordered
list (`"- "`, `"* "`, `"+ "`), ordered list (leading digit and `". "`
splitting the line in exactly two), fenced code, blockquote, default
paragraph. -/
def DetectNotionSyntax (line : String) : String :=
  let trimmed := trimSpace line
  if hasPre trimmed "# " then "h1"
  else if hasPre trimmed "## " then "h2"
  else if hasPre trimmed "### " then "h3"
  else if hasPre trimmed "#### " then "h4"
  else if hasPre trimmed "##### " then "h5"
  else if hasPre trimmed "###### " then "h6"
  else if hasPre trimmed "- [ ]" || hasPre trimmed "- [x]" then "checkbox"
  else if hasPre trimmed "- " || hasPre trimmed "* " || hasPre trimmed "+ " then
    "unordered_list"
  else if firstIsDigit trimmed && (splitN2 trimmed ". ").length == 2 then
    "ordered_list"
  else if hasPre trimmed "```" then "code_block"
  else if hasPre trimmed "> " then "blockquote"
  else "paragraph"

/-- `renderLineToHTML` from the incremental parser: direct HTML rendering
of a single line according to its detected syntax type. -/
def renderLineToHTML (line syntaxType : String) : String :=
  let trimmed := trimSpace line
  if syntaxType = "h1" then "<h1>" ++ trimPre "# " trimmed ++ "</h1>"
  else if syntaxType = "h2" then "<h2>" ++ trimPre "## " trimmed ++ "</h2>"
  else if syntaxType = "h3" then "<h3>" ++ trimPre "### " trimmed ++ "</h3>"
  else if syntaxType = "h4" then "<h4>" ++ trimPre "#### " trimmed ++ "</h4>"
  else if syntaxType = "h5" then "<h5>" ++ trimPre "##### " trimmed ++ "</h5>"
  else if syntaxType = "h6" then "<h6>" ++ trimPre "###### " trimmed ++ "</h6>"
  else if syntaxType = "unordered_list" then
    "<ul><li>" ++ trimPre "+ " (trimPre "* " (trimPre "- " trimmed)) ++ "</li></ul>"
  else if syntaxType = "ordered_list" then
    match splitN2 trimmed ". " with
    | [_, second] => "<ol><li>" ++ second ++ "</li></ol>"
    | _ => "<p>" ++ line ++ "</p>"
  else if syntaxType = "blockquote" then
    "<blockquote><p>" ++ trimPre "> " trimmed ++ "</p></blockquote>"
  else if syntaxType = "code_block" then
    if hasPre trimmed "```" then
      let lang := trimPre "```" trimmed
      if lang = "" then "<pre><code>"
      else "<pre><code class=\"language-" ++ lang ++ "\">"
    else "<pre><code>" ++ line ++ "</code></pre>"
  else if syntaxType = "checkbox" then
    if containsSub trimmed "- [x]" then
      "<ul><li><input type=\"checkbox\" checked disabled>" ++
        trimSpace (replaceFirst trimmed "- [x]" "") ++ "</li></ul>"
    else
      "<ul><li><input type=\"checkbox\" disabled>" ++
        trimSpace (replaceFirst trimmed "- [ ]" "") ++ "</li></ul>"
  else "<p>" ++ line ++ "</p>"

/-- `generateLineID` from the incremental parser; `crypto/md5` is the
out-of-scope hash, passed as the parameter `md5hex` (the `%x` rendering of
the digest).  The Go `[:12]` byte slice is a 12-character take on these
all-ASCII strings. -/
def generateLineID (md5hex : String → String) (line : String) (lineNumber : Int) : String :=
  let content := trimSpace line
  let content := if content = "" then "empty" else content
  ⟨("line_" ++ toString lineNumber ++ "_" ++ md5hex content).data.take 12⟩

/-- `models.ParseResponse` restricted to the fields the embedded code
produces (`AST` and `Error` are never set on the success paths embedded
here). -/
structure ParseResponse where
  html : String
  blocks : Snapshot
  changes : List BlockChange
  success : Bool
deriving Repr

/-- `Parse` from `internal/parser/goldmark.go`: empty content short-circuits
to an empty successful response; otherwise the goldmark pipeline (parse,
render, `extractBlocks` — all operating on the out-of-scope goldmark AST)
is the parameter `renderAndExtract`, whose failure is propagated as the
render error. -/
def Parse (renderAndExtract : String → Except String (String × Snapshot))
    (content : String) : Except String ParseResponse :=
  if content = "" then
    .ok { html := "", blocks := [], changes := [], success := true }
  else
    match renderAndExtract content with
    | .error e => .error ("failed to render HTML: " ++ e)
    | .ok (html, blocks) => .ok { html := html, blocks := blocks, changes := [], success := true }

/-- `ParseIncremental` from `internal/parser/goldmark.go`: parses the entire
content, ignoring `blockID` ("for now, we\'ll parse the entire content"). -/
def ParseIncremental (renderAndExtract : String → Except String (String × Snapshot))
    (content blockID : String) : Except String ParseResponse :=
  Parse renderAndExtract content

/-- `ParseLine` from the incremental parser: empty-after-trim lines yield no
block; otherwise build a block from the heuristic classification and single
line renderer, then try the full parse and adopt the first goldmark block
whose type is known, whose HTML is non-empty, and which is compatible with
the detected type (map iteration order is the snapshot\'s list order). -/
def ParseLine (md5hex : String → String)
    (renderAndExtract : String → Except String (String × Snapshot))
    (line : String) (lineNumber : Int) : Option Block :=
  let trimmed := trimSpace line
  if trimmed = "" then none
  else
    let syntaxType := DetectNotionSyntax line
    let block : Block :=
      { id := generateLineID md5hex line lineNumber
        type := syntaxType
        level := 0
        content := line
        html := renderLineToHTML line syntaxType
        position := { line := lineNumber, start := 0, stop := (line.utf8ByteSize : Int) }
        children := [] }
    match Parse renderAndExtract line with
    | .ok result =>
      match result.blocks.find? (fun p => p.2.type ≠ "unknown" ∧ p.2.html ≠ "" ∧
          (syntaxType = "paragraph" ∨ syntaxType = p.2.type)) with
      | some g =>
        some { block with
          html := g.2.html
          type := if syntaxType = "paragraph" then g.2.type else block.type }
      | none => some block
    | .error _ => some block

/-- A WebSocket client handle as the hub sees it (`internal/websocket`):
the buffered `send` channel is modelled by its capacity and queued
payloads; `closed` records whether `close(client.send)` has been executed;
`subscribedDocuments` is the set of document ids the handle's
`map[string]bool` maps to `true`. -/
structure Client where
  id : Nat
  sendCap : Nat
  sendBuf : List String
  closed : Bool
  subscribedDocuments : List String
deriving DecidableEq, Repr

/-- The hub state relevant to dispatch: the live set `h.clients` (presence
in the list is membership in the Go map; the list order is one admissible
map iteration order). -/
structure Hub where
  clients : List Client
deriving DecidableEq, Repr

/-- The loop body of `broadcastToDocument` over the live set: a subscribed
client with buffer space receives the payload (the `select` send case); a
subscribed client with a full buffer is closed and dropped from the live
set (the `default` case); an unsubscribed client is untouched.  Returns the
surviving live set and the closed, dropped clients. -/
def broadcastClients (documentID data : String) : List Client → List Client × List Client
  | [] => ([], [])
  | c :: rest =>
    if c.subscribedDocuments.contains documentID then
      if c.sendBuf.length < c.sendCap then
        ({ c with sendBuf := c.sendBuf ++ [data] } :: (broadcastClients documentID data rest).1,
          (broadcastClients documentID data rest).2)
      else
        ((broadcastClients documentID data rest).1,
          { c with closed := true } :: (broadcastClients documentID data rest).2)
    else
      (c :: (broadcastClients documentID data rest).1,
        (broadcastClients documentID data rest).2)

/-- `broadcastToDocument` from the websocket hub (`internal/websocket`):
non-blocking fan-out of an already-encoded payload (`encoding/json` is out
of scope) to every live client subscribed to the document, dropping slow
consumers.  The second component is the list of connections that were
closed and unregistered during this dispatch. -/
def broadcastToDocument (h : Hub) (documentID data : String) : Hub × List Client :=
  (⟨(broadcastClients documentID data h.clients).1⟩,
    (broadcastClients documentID data h.clients).2)

/-- The subscribers of a document: the live clients whose subscription set
contains it.  The hub keeps no separate per-document index; this derived
set is exactly what `broadcastToDocument` iterates, so a connection absent
from the live set is a subscriber of nothing. -/
def Hub.subscribers (h : Hub) (documentID : String) : List Client :=
  h.clients.filter (fun c => c.subscribedDocuments.contains documentID)

/-- A slow consumer for the backpressure scenario: capacity-1 outbound
buffer already holding an undrained message, subscribed to `"doc1"`. -/
def demoSlow : Client :=
  { id := 1, sendCap := 1, sendBuf := ["queued"], closed := false,
    subscribedDocuments := ["doc1"] }

/-- A healthy consumer subscribed to the same document. -/
def demoFast : Client :=
  { id := 2, sendCap := 16, sendBuf := [], closed := false,
    subscribedDocuments := ["doc1"] }

/-- A concrete heading block, used to instantiate theorems with hypotheses
on concrete inputs (the spec's end-to-end scenario `{b1: h1 "Title"}`). -/
def demoBlockA : Block :=
  { id := "b1", type := "h1", level := 1, content := "# Title",
    html := "<h1>Title</h1>", position := ⟨0, 7, 1⟩, children := [] }

/-- A concrete paragraph block (`{b2: paragraph "body"}`). -/
def demoBlockB : Block :=
  { id := "b2", type := "paragraph", level := 0, content := "body",
    html := "<p>body</p>", position := ⟨9, 13, 3⟩, children := [] }

/-- `demoBlockB` re-rendered at a different source offset: identical type,
content, level and markup, different position. -/
def demoBlockBMoved : Block :=
  { demoBlockB with position := ⟨20, 24, 5⟩ }

/-- A block annotated with the heap identity of the `*models.Block` object
holding it: `addr` is the address of the Go allocation, the remaining
fields mirror `Block`, and children are the pointed-to child objects.  This
refines the pure `Block` model (erasing addresses, below) and makes the
aliasing content of C9 expressible: two trees share an object exactly when
they share an address. -/
inductive ABlock where
  | mk (addr : Nat) (id type : String) (level : Int) (content html : String)
      (position : Position) (children : List ABlock)

/-- The heap address of the block's own object. -/
def ABlock.addr : ABlock → Nat
  | .mk a _ _ _ _ _ _ _ => a

/-- Forget the heap annotation: the pure `Block` denoted by the tree. -/
def ABlock.erase : ABlock → Block
  | .mk _ i t l c h p cs => ⟨i, t, l, c, h, p, cs.attach.map (fun x => x.1.erase)⟩
termination_by b => sizeOf b
decreasing_by
  have h := List.sizeOf_lt_of_mem x.2
  simp at h ⊢
  omega

/-- All heap addresses occurring in the tree (its object footprint). -/
def ABlock.addrList : ABlock → List Nat
  | .mk a _ _ _ _ _ _ cs => a :: (cs.attach.map (fun x => x.1.addrList)).flatten
termination_by b => sizeOf b
decreasing_by
  have h := List.sizeOf_lt_of_mem x.2
  simp at h ⊢
  omega

/-- The allocation behaviour of `copyBlock` on a list of sibling blocks:
each visited node allocates one fresh object (`&models.Block{...}`),
modelled by a strictly increasing address counter; each node's children are
copied right after it, then the remaining siblings. -/
def copyBlocksAlloc : List ABlock → Nat → List ABlock × Nat
  | [], ctr => ([], ctr)
  | ABlock.mk _ i t l c h p cs :: rest, ctr =>
    (ABlock.mk ctr i t l c h p (copyBlocksAlloc cs (ctr + 1)).1 ::
        (copyBlocksAlloc rest (copyBlocksAlloc cs (ctr + 1)).2).1,
      (copyBlocksAlloc rest (copyBlocksAlloc cs (ctr + 1)).2).2)
termination_by l _ => sizeOf l
decreasing_by
  all_goals simp
  all_goals omega

/-- `copyBlock` on one block with explicit allocation. -/
def copyABlockAlloc : ABlock → Nat → ABlock × Nat
  | ABlock.mk _ i t l c h p cs, ctr =>
    (ABlock.mk ctr i t l c h p (copyBlocksAlloc cs (ctr + 1)).1,
      (copyBlocksAlloc cs (ctr + 1)).2)

/-- `copyBlocks` on a snapshot with explicit allocation: this is the store
`d.previousBlocks = d.copyBlocks(newBlocks)` performed at the end of
`ComputeDiff`, at the heap level. -/
def copySnapshotAlloc : List (String × ABlock) → Nat → List (String × ABlock) × Nat
  | [], ctr => ([], ctr)
  | (k, b) :: rest, ctr =>
    ((k, (copyABlockAlloc b ctr).1) ::
        (copySnapshotAlloc rest (copyABlockAlloc b ctr).2).1,
      (copySnapshotAlloc rest (copyABlockAlloc b ctr).2).2)

/-- Erase the heap annotation of a whole snapshot. -/
def eraseSnap (s : List (String × ABlock)) : Snapshot :=
  s.map (fun p => (p.1, p.2.erase))

/-- The object footprint of a whole snapshot. -/
def snapAddrs (s : List (String × ABlock)) : List Nat :=
  (s.map (fun p => p.2.addrList)).flatten

/-- A write through the pointer with address `a` (`block.Content = str` in
Go): the content field changes in every tree that holds the object `a`. -/
def ABlock.setContentAt (a : Nat) (str : String) : ABlock → ABlock
  | .mk a0 i t l c h p cs =>
    .mk a0 i t l (if a0 = a then str else c) h p
      (cs.attach.map (fun x => ABlock.setContentAt a str x.1))
termination_by b => sizeOf b
decreasing_by
  have h := List.sizeOf_lt_of_mem x.2
  simp at h ⊢
  omega

/-- The same write as seen by a snapshot. -/
def setContentAtSnap (a : Nat) (str : String) (s : List (String × ABlock)) :
    List (String × ABlock) :=
  s.map (fun p => (p.1, p.2.setContentAt a str))

/-- A child block at heap address 1. -/
def demoChildA : ABlock :=
  .mk 1 "c1" "list_item" 0 "item" "<li>item</li>" ⟨2, 6, 2⟩ []

/-- A parent block at heap address 0 owning `demoChildA`. -/
def demoABlock : ABlock :=
  .mk 0 "b1" "unordered_list" 0 "- item" "<ul><li>item</li></ul>" ⟨0, 7, 1⟩ [demoChildA]

/-- A one-entry annotated snapshot occupying addresses 0 and 1. -/
def demoASnap : List (String × ABlock) := [("b1", demoABlock)]

/-! ### Theorems -/

theorem copyBlock_eq (b : Block) : copyBlock b = b := by
  cases b with
  | mk i t l c h p cs =>
    rw [copyBlock]
    simp only [Block.mk.injEq, true_and]
    have h1 : cs.attach.map (fun c => copyBlock c.1) = cs.attach.map (fun c => c.1) :=
      List.map_congr_left (fun a _ => copyBlock_eq a.1)
    rw [h1, List.attach_map_subtype_val]
termination_by sizeOf b
decreasing_by
  have h := List.sizeOf_lt_of_mem a.2
  simp at h ⊢
  omega

theorem copyBlocks_eq (s : Snapshot) : copyBlocks s = s := by
  unfold copyBlocks
  induction s with
  | nil => rfl
  | cons hd tl ih => simp [copyBlock_eq, ih]

theorem Snapshot.find_cons (k' : String) (b' : Block) (tl : Snapshot) (k : String) :
    Snapshot.find ((k', b') :: tl) k = if k' = k then some b' else Snapshot.find tl k := by
  rw [Snapshot.find, List.find?_cons]
  by_cases h : k' = k
  · simp [h]
  · simp [h, Snapshot.find]

theorem Snapshot.find_eq_some_iff (m : Snapshot) (h : (m.map Prod.fst).Nodup)
    (k : String) (b : Block) : m.find k = some b ↔ (k, b) ∈ m := by
  induction m with
  | nil => simp [Snapshot.find]
  | cons hd tl ih =>
    obtain ⟨k', b'⟩ := hd
    rw [List.map_cons] at h
    obtain ⟨hk, htl⟩ := List.nodup_cons.mp h
    rw [Snapshot.find_cons]
    by_cases hkey : k' = k
    · subst hkey
      rw [if_pos rfl]
      constructor
      · intro h'
        rw [Option.some_inj] at h'
        subst h'
        exact List.mem_cons_self _ _
      · intro h'
        rcases List.mem_cons.mp h' with heq | hmem
        · simp only [Prod.mk.injEq, true_and] at heq
          rw [heq]
        · exact absurd (List.mem_map_of_mem Prod.fst hmem) (by simpa using hk)
    · rw [if_neg hkey, ih htl]
      simp only [List.mem_cons, Prod.mk.injEq]
      constructor
      · exact Or.inr
      · rintro (⟨rfl, -⟩ | hmem)
        · exact absurd rfl hkey
        · exact hmem

theorem Snapshot.find_eq_none_iff (m : Snapshot) (k : String) :
    m.find k = none ↔ ∀ p ∈ m, p.1 ≠ k := by
  rw [Snapshot.find, Option.map_eq_none', List.find?_eq_none]
  simp

/-- Membership of an `added` entry in the change list, characterised. -/
theorem mem_computeDiffChanges_added (prev new : Snapshot) (id : String) (b : Block) :
    BlockChange.mk "added" id b ∈ computeDiffChanges prev new ↔
      ((id, b) ∈ new ∧ Snapshot.find prev id = none) := by
  unfold computeDiffChanges
  simp only [List.mem_append, List.mem_filterMap]
  constructor
  · rintro (⟨⟨pk, pb⟩, hmem, hf⟩ | ⟨⟨pk, pb⟩, hmem, hf⟩)
    · cases hfind : Snapshot.find prev pk with
      | some ob =>
        rw [hfind] at hf
        by_cases hch : hasBlockChanged ob pb
        · simp [hch] at hf
        · simp [hch] at hf
      | none =>
        rw [hfind] at hf
        simp only [Option.some.injEq, BlockChange.mk.injEq] at hf
        obtain ⟨-, rfl, rfl⟩ := hf
        exact ⟨hmem, hfind⟩
    · by_cases hs : (List.find? (fun q => q.1 = pk) new).isSome
      · simp [hs] at hf
      · simp [hs] at hf
  · rintro ⟨hmem, hnone⟩
    exact Or.inl ⟨(id, b), hmem, by rw [hnone]⟩

/-- Membership of a `modified` entry in the change list, characterised. -/
theorem mem_computeDiffChanges_modified (prev new : Snapshot) (id : String) (b : Block) :
    BlockChange.mk "modified" id b ∈ computeDiffChanges prev new ↔
      ((id, b) ∈ new ∧ ∃ ob, Snapshot.find prev id = some ob ∧
        computeBlockHash ob ≠ computeBlockHash b) := by
  unfold computeDiffChanges
  simp only [List.mem_append, List.mem_filterMap]
  constructor
  · rintro (⟨⟨pk, pb⟩, hmem, hf⟩ | ⟨⟨pk, pb⟩, hmem, hf⟩)
    · cases hfind : Snapshot.find prev pk with
      | some ob =>
        rw [hfind] at hf
        by_cases hch : hasBlockChanged ob pb
        · simp only [hch, if_true, Option.some.injEq, BlockChange.mk.injEq] at hf
          obtain ⟨-, rfl, rfl⟩ := hf
          refine ⟨hmem, ob, hfind, ?_⟩
          simpa [hasBlockChanged] using hch
        · simp [hch] at hf
      | none =>
        rw [hfind] at hf
        simp at hf
    · by_cases hs : (List.find? (fun q => q.1 = pk) new).isSome
      · simp [hs] at hf
      · simp [hs] at hf
  · rintro ⟨hmem, ob, hfind, hne⟩
    refine Or.inl ⟨(id, b), hmem, ?_⟩
    rw [hfind]
    simp [hasBlockChanged, hne]

/-- Membership of a `removed` entry in the change list, characterised. -/
theorem mem_computeDiffChanges_removed (prev new : Snapshot) (id : String) (b : Block) :
    BlockChange.mk "removed" id b ∈ computeDiffChanges prev new ↔
      ((id, b) ∈ prev ∧ Snapshot.find new id = none) := by
  unfold computeDiffChanges
  simp only [List.mem_append, List.mem_filterMap]
  constructor
  · rintro (⟨⟨pk, pb⟩, hmem, hf⟩ | ⟨⟨pk, pb⟩, hmem, hf⟩)
    · cases hfind : Snapshot.find prev pk with
      | some ob =>
        rw [hfind] at hf
        by_cases hch : hasBlockChanged ob pb
        · simp [hch] at hf
        · simp [hch] at hf
      | none =>
        rw [hfind] at hf
        simp at hf
    · by_cases hs : (List.find? (fun q => q.1 = pk) new).isSome
      · simp [hs] at hf
      · simp only [hs, if_false, Option.some.injEq, BlockChange.mk.injEq] at hf
        obtain ⟨-, rfl, rfl⟩ := hf
        refine ⟨hmem, ?_⟩
        rw [Snapshot.find, Option.map_eq_none', ← Option.not_isSome_iff_eq_none]
        exact hs
  · rintro ⟨hmem, hnone⟩
    refine Or.inr ⟨(id, b), hmem, ?_⟩
    rw [Snapshot.find, Option.map_eq_none'] at hnone
    simp [hnone]

/-- C2: for every detector state (previous snapshot) and new snapshot, the
change list of `ComputeDiff` contains an `added` or `modified` entry for
exactly those ids present in the new snapshot that are new or whose
content-hash differs from the previous snapshot's block, and a `removed`
entry for exactly those ids of the previous snapshot absent from the new
snapshot, each `removed` entry carrying the previous snapshot's block as
payload. -/
theorem ComputeDiff_complete (d : BlockDiffer) (newBlocks : Snapshot)
    (hp : (d.previousBlocks.map Prod.fst).Nodup)
    (hn : (newBlocks.map Prod.fst).Nodup) (id : String) :
    ((∃ b, BlockChange.mk "added" id b ∈ (ComputeDiff d newBlocks).1 ∨
           BlockChange.mk "modified" id b ∈ (ComputeDiff d newBlocks).1) ↔
      (∃ nb, Snapshot.find newBlocks id = some nb ∧
        (Snapshot.find d.previousBlocks id = none ∨
         ∃ ob, Snapshot.find d.previousBlocks id = some ob ∧
           computeBlockHash ob ≠ computeBlockHash nb))) ∧
    (∀ b, BlockChange.mk "removed" id b ∈ (ComputeDiff d newBlocks).1 ↔
      (Snapshot.find d.previousBlocks id = some b ∧
       Snapshot.find newBlocks id = none)) := by
  simp only [ComputeDiff]
  constructor
  · constructor
    · rintro ⟨b, hmem | hmem⟩
      · rw [mem_computeDiffChanges_added] at hmem
        obtain ⟨hb, hnone⟩ := hmem
        exact ⟨b, (Snapshot.find_eq_some_iff _ hn _ _).mpr hb, Or.inl hnone⟩
      · rw [mem_computeDiffChanges_modified] at hmem
        obtain ⟨hb, ob, hf, hne⟩ := hmem
        exact ⟨b, (Snapshot.find_eq_some_iff _ hn _ _).mpr hb, Or.inr ⟨ob, hf, hne⟩⟩
    · rintro ⟨nb, hfind, hnone | ⟨ob, hf, hne⟩⟩
      · exact ⟨nb, Or.inl ((mem_computeDiffChanges_added _ _ _ _).mpr
          ⟨(Snapshot.find_eq_some_iff _ hn _ _).mp hfind, hnone⟩)⟩
      · exact ⟨nb, Or.inr ((mem_computeDiffChanges_modified _ _ _ _).mpr
          ⟨(Snapshot.find_eq_some_iff _ hn _ _).mp hfind, ob, hf, hne⟩)⟩
  · intro b
    rw [mem_computeDiffChanges_removed]
    constructor
    · rintro ⟨hmem, hnone⟩
      exact ⟨(Snapshot.find_eq_some_iff _ hp _ _).mpr hmem, hnone⟩
    · rintro ⟨hf, hnone⟩
      exact ⟨(Snapshot.find_eq_some_iff _ hp _ _).mp hf, hnone⟩

theorem ComputeDiff_complete_witness :
    BlockChange.mk "removed" "b1" demoBlockA ∈
      (ComputeDiff ⟨[("b1", demoBlockA)]⟩ [("b2", demoBlockB)]).1 :=
  ((ComputeDiff_complete ⟨[("b1", demoBlockA)]⟩ [("b2", demoBlockB)]
      (by decide) (by decide) "b1").2 demoBlockA).mpr ⟨by rfl, by rfl⟩

/-- C3: calling `ComputeDiff` and then calling it again with a snapshot
identical to the first one makes the second call return an empty change
list (idempotence on identical consecutive snapshots). -/
theorem ComputeDiff_idempotent (d : BlockDiffer) (s : Snapshot)
    (h : (s.map Prod.fst).Nodup) :
    (ComputeDiff (ComputeDiff d s).2 s).1 = [] := by
  simp only [ComputeDiff, copyBlocks_eq]
  unfold computeDiffChanges
  rw [List.append_eq_nil]
  constructor
  · rw [List.filterMap_eq_nil_iff]
    rintro ⟨k, b⟩ hmem
    have hf : Snapshot.find s k = some b := (Snapshot.find_eq_some_iff s h k b).mpr hmem
    rw [hf]
    simp [hasBlockChanged]
  · rw [List.filterMap_eq_nil_iff]
    rintro ⟨k, b⟩ hmem
    have hs : (List.find? (fun q => q.1 = k) s).isSome :=
      List.find?_isSome.mpr ⟨(k, b), hmem, by simp⟩
    simp [hs]

theorem ComputeDiff_idempotent_witness :
    (ComputeDiff (ComputeDiff NewBlockDiffer [("b1", demoBlockA), ("b2", demoBlockB)]).2
        [("b1", demoBlockA), ("b2", demoBlockB)]).1 = [] :=
  ComputeDiff_idempotent NewBlockDiffer [("b1", demoBlockA), ("b2", demoBlockB)] (by decide)

/-- C7: for a block id present in both snapshots whose blocks agree on type,
content, level and rendered markup, `ComputeDiff` emits no change for that
id — position (and children) are excluded from the change-detection hash, so
a block re-rendered with identical semantic content at a new offset is not
reported. -/
theorem ComputeDiff_position_insensitive (d : BlockDiffer) (newBlocks : Snapshot)
    (hn : (newBlocks.map Prod.fst).Nodup) (id : String) (ob nb : Block)
    (hfo : Snapshot.find d.previousBlocks id = some ob)
    (hfn : Snapshot.find newBlocks id = some nb)
    (ht : ob.type = nb.type) (hc : ob.content = nb.content)
    (hl : ob.level = nb.level) (hh : ob.html = nb.html) :
    ∀ c ∈ (ComputeDiff d newBlocks).1, c.blockID ≠ id := by
  have hhash : computeBlockHash ob = computeBlockHash nb := by
    unfold computeBlockHash
    rw [ht, hc, hl, hh]
  intro c hc' heq
  simp only [ComputeDiff] at hc'
  unfold computeDiffChanges at hc'
  rcases List.mem_append.mp hc' with hm | hm
  · obtain ⟨⟨pk, pb⟩, hpmem, hf⟩ := List.mem_filterMap.mp hm
    cases hfind : Snapshot.find d.previousBlocks pk with
    | none =>
      rw [hfind] at hf
      rw [Option.some_inj] at hf
      subst hf
      have hpk : pk = id := heq
      subst hpk
      rw [hfo] at hfind
      exact Option.noConfusion hfind
    | some ob' =>
      rw [hfind] at hf
      by_cases hch : hasBlockChanged ob' pb
      · simp only [hch, if_true, Option.some_inj] at hf
        subst hf
        have hpk : pk = id := heq
        subst hpk
        rw [hfo] at hfind
        rw [Option.some_inj] at hfind
        subst hfind
        have hpb : pb = nb :=
          Option.some_inj.mp
            (((Snapshot.find_eq_some_iff _ hn _ _).mpr hpmem).symm.trans hfn)
        subst hpb
        simp [hasBlockChanged, hhash] at hch
      · simp [hch] at hf
  · obtain ⟨⟨pk, pb⟩, hpmem, hf⟩ := List.mem_filterMap.mp hm
    by_cases hs : (List.find? (fun q => q.1 = pk) newBlocks).isSome
    · rw [if_pos hs] at hf
      exact Option.noConfusion hf
    · rw [if_neg hs, Option.some_inj] at hf
      subst hf
      have hpk : pk = id := heq
      subst hpk
      apply hs
      obtain ⟨p, hp, -⟩ := Option.map_eq_some'.mp hfn
      rw [hp]
      rfl

theorem ComputeDiff_position_insensitive_witness :
    ((ComputeDiff ⟨[("b2", demoBlockB)]⟩ [("b2", demoBlockBMoved)]).1.all
      (fun c => c.blockID != "b2")) = true := by
  have h := ComputeDiff_position_insensitive ⟨[("b2", demoBlockB)]⟩
    [("b2", demoBlockBMoved)] (by decide) "b2" demoBlockB demoBlockBMoved
    (by rfl) (by rfl) rfl rfl rfl rfl
  exact List.all_eq_true.mpr (fun c hc => by simpa using h c hc)

theorem take_succ_getD (l : List String) (j : Nat) (h : j < l.length) :
    l.take (j + 1) = l.take j ++ [l.getD j ""] := by
  rw [List.take_succ, List.getD_eq_getElem?_getD, List.getElem?_eq_getElem h]
  rfl

theorem joinLines_splitLines (s : String) : joinLines (splitLines s) = s := by
  unfold joinLines splitLines
  rw [List.map_map]
  have h : (String.data ∘ String.mk) = id := rfl
  rw [h, List.map_id, List.intercalate_splitOn]

theorem backtrack_zero_zero (o n : List String) : backtrack o n 0 0 = [] := by
  simp [backtrack]

theorem backtrack_zero_succ (o n : List String) (j : Nat) :
    backtrack o n 0 (j + 1) = backtrack o n 0 j ++
      [{ type := "added", lineNum := (j : Int) + 1, content := n.getD j "" }] := by
  simp [backtrack]

theorem backtrack_succ_zero (o n : List String) (i : Nat) :
    backtrack o n (i + 1) 0 = backtrack o n i 0 ++
      [{ type := "removed", lineNum := (i : Int) + 1, content := o.getD i "" }] := by
  simp [backtrack]

theorem backtrack_succ_succ_diag (o n : List String) (i j : Nat)
    (heq : o.getD i "" = n.getD j "") :
    backtrack o n (i + 1) (j + 1) = backtrack o n i j ++
      [{ type := "unchanged", lineNum := (j : Int) + 1, content := n.getD j "" }] := by
  rw [backtrack, if_pos heq]

theorem backtrack_succ_succ_added (o n : List String) (i j : Nat)
    (heq : o.getD i "" ≠ n.getD j "")
    (hge : lcsTable o n (i + 1) j ≥ lcsTable o n i (j + 1)) :
    backtrack o n (i + 1) (j + 1) = backtrack o n (i + 1) j ++
      [{ type := "added", lineNum := (j : Int) + 1, content := n.getD j "" }] := by
  rw [backtrack, if_neg heq, if_pos hge]

theorem backtrack_succ_succ_removed (o n : List String) (i j : Nat)
    (heq : o.getD i "" ≠ n.getD j "")
    (hlt : ¬ lcsTable o n (i + 1) j ≥ lcsTable o n i (j + 1)) :
    backtrack o n (i + 1) (j + 1) = backtrack o n i (j + 1) ++
      [{ type := "removed", lineNum := (i : Int) + 1, content := o.getD i "" }] := by
  rw [backtrack, if_neg heq, if_neg hlt]

theorem lineNums_succ (j : Nat) : lineNums (j + 1) = lineNums j ++ [(j : Int) + 1] := by
  unfold lineNums
  rw [List.range_succ, List.map_append]
  rfl

theorem filter_append_singleton_pos (p : LineChange → Bool) (l : List LineChange)
    (x : LineChange) (h : p x = true) : (l ++ [x]).filter p = l.filter p ++ [x] := by
  rw [List.filter_append]
  simp [List.filter, h]

theorem filter_append_singleton_neg (p : LineChange → Bool) (l : List LineChange)
    (x : LineChange) (h : p x = false) : (l ++ [x]).filter p = l.filter p := by
  rw [List.filter_append]
  simp [List.filter, h]

/-- Structure of the backtracking output on any admissible prefix pair:
the `added ∪ unchanged` entries list the first `j` new lines in order with
line numbers `1..j`, and the `removed ∪ unchanged` entries list the first
`i` old lines in order. -/
theorem backtrack_spec (o n : List String) (i j : Nat)
    (hi : i ≤ o.length) (hj : j ≤ n.length) :
    ((backtrack o n i j).filter isNewSide).map LineChange.content = n.take j ∧
    ((backtrack o n i j).filter isNewSide).map LineChange.lineNum = lineNums j ∧
    ((backtrack o n i j).filter isOldSide).map LineChange.content = o.take i := by
  match i, j with
  | 0, 0 =>
    rw [backtrack_zero_zero]
    exact ⟨rfl, rfl, rfl⟩
  | 0, j + 1 =>
    obtain ⟨h1, h2, h3⟩ := backtrack_spec o n 0 j (by omega) (by omega)
    rw [backtrack_zero_succ,
      filter_append_singleton_pos isNewSide _ _ (by rfl),
      filter_append_singleton_neg isOldSide _ _ (by rfl)]
    refine ⟨?_, ?_, h3⟩
    · rw [List.map_append, h1, take_succ_getD n j (by omega)]
      rfl
    · rw [List.map_append, h2, lineNums_succ]
      rfl
  | i + 1, 0 =>
    obtain ⟨h1, h2, h3⟩ := backtrack_spec o n i 0 (by omega) (by omega)
    rw [backtrack_succ_zero,
      filter_append_singleton_neg isNewSide _ _ (by rfl),
      filter_append_singleton_pos isOldSide _ _ (by rfl)]
    refine ⟨h1, h2, ?_⟩
    rw [List.map_append, h3, take_succ_getD o i (by omega)]
    rfl
  | i + 1, j + 1 =>
    by_cases heq : o.getD i "" = n.getD j ""
    · obtain ⟨h1, h2, h3⟩ := backtrack_spec o n i j (by omega) (by omega)
      have hto := take_succ_getD o i (by omega)
      rw [heq] at hto
      rw [backtrack_succ_succ_diag o n i j heq,
        filter_append_singleton_pos isNewSide _ _ (by rfl),
        filter_append_singleton_pos isOldSide _ _ (by rfl)]
      refine ⟨?_, ?_, ?_⟩
      · rw [List.map_append, h1, take_succ_getD n j (by omega)]
        rfl
      · rw [List.map_append, h2, lineNums_succ]
        rfl
      · rw [List.map_append, h3, hto]
        rfl
    · by_cases hge : lcsTable o n (i + 1) j ≥ lcsTable o n i (j + 1)
      · obtain ⟨h1, h2, h3⟩ := backtrack_spec o n (i + 1) j (by omega) (by omega)
        rw [backtrack_succ_succ_added o n i j heq hge,
          filter_append_singleton_pos isNewSide _ _ (by rfl),
          filter_append_singleton_neg isOldSide _ _ (by rfl)]
        refine ⟨?_, ?_, h3⟩
        · rw [List.map_append, h1, take_succ_getD n j (by omega)]
          rfl
        · rw [List.map_append, h2, lineNums_succ]
          rfl
      · obtain ⟨h1, h2, h3⟩ := backtrack_spec o n i (j + 1) (by omega) (by omega)
        rw [backtrack_succ_succ_removed o n i j heq hge,
          filter_append_singleton_neg isNewSide _ _ (by rfl),
          filter_append_singleton_pos isOldSide _ _ (by rfl)]
        refine ⟨h1, h2, ?_⟩
        rw [List.map_append, h3, take_succ_getD o i (by omega)]
        rfl
termination_by (i, j)

/-- C1: for every pair of texts, the `added ∪ unchanged` entries of
`ComputeLineDiff old new`, read in output order — which carries exactly the
new-line numbers `1..newLen` in increasing order — reconstruct the new text
when joined by newline, and the `removed ∪ unchanged` entries, read in
output order (the increasing order of old-line positions; `unchanged`
entries store the new-sequence number per the data model), reconstruct the
old text. -/
theorem ComputeLineDiff_roundTrip (oldContent newContent : String) :
    joinLines (((ComputeLineDiff oldContent newContent).filter isNewSide).map
      LineChange.content) = newContent ∧
    ((ComputeLineDiff oldContent newContent).filter isNewSide).map LineChange.lineNum
      = lineNums (splitLines newContent).length ∧
    joinLines (((ComputeLineDiff oldContent newContent).filter isOldSide).map
      LineChange.content) = oldContent := by
  obtain ⟨h1, h2, h3⟩ := backtrack_spec (splitLines oldContent) (splitLines newContent)
    (splitLines oldContent).length (splitLines newContent).length le_rfl le_rfl
  rw [List.take_length] at h1 h3
  unfold ComputeLineDiff computeLCS
  rw [h1, h2, h3, joinLines_splitLines, joinLines_splitLines]
  exact ⟨rfl, rfl, rfl⟩

/-- C6: during LCS backtracking, at a position where the old and new lines
differ and the two candidate table values `dp[i][j-1]` and `dp[i-1][j]` are
equal, the tie is broken in favour of recording an `added` entry (the
new-sequence pointer advances), making the edit script deterministic. -/
theorem backtrack_tie_breaks_added (o n : List String) (i j : Nat)
    (hne : o.getD i "" ≠ n.getD j "")
    (htie : lcsTable o n (i + 1) j = lcsTable o n i (j + 1)) :
    backtrack o n (i + 1) (j + 1) = backtrack o n (i + 1) j ++
      [{ type := "added", lineNum := (j : Int) + 1, content := n.getD j "" }] :=
  backtrack_succ_succ_added o n i j hne (le_of_eq htie.symm)

theorem backtrack_tie_breaks_added_witness :
    backtrack ["a"] ["b"] 1 1 = backtrack ["a"] ["b"] 1 0 ++
      [{ type := "added", lineNum := (0 : Int) + 1, content := "b" }] :=
  backtrack_tie_breaks_added ["a"] ["b"] 0 0 (by decide) (by simp [lcsTable])

/-- C8, as stated, is false on the code: `strings.Split("", "\n")` is the
one-element sequence `[""]`, not the empty sequence, so diffing two empty
texts yields one `unchanged` entry for the empty line, and diffing an empty
old text against `"x"` yields a `removed` entry for the empty old line next
to the `added` entry — not an entirely-`added` script. -/
theorem ComputeLineDiff_empty_texts :
    ComputeLineDiff "" "" = [{ type := "unchanged", lineNum := 1, content := "" }] ∧
    (ComputeLineDiff "" "x").all (fun c => c.type == "added") = false := by
  have h0 : splitLines "" = [""] := rfl
  have hx : splitLines "x" = ["x"] := rfl
  constructor
  · have h : ComputeLineDiff "" "" = backtrack [""] [""] 1 1 := by
      unfold ComputeLineDiff computeLCS
      rw [h0]
      rfl
    rw [h, backtrack_succ_succ_diag [""] [""] 0 0 rfl, backtrack_zero_zero]
    simp
  · have h : ComputeLineDiff "" "x" = backtrack [""] ["x"] 1 1 := by
      unfold ComputeLineDiff computeLCS
      rw [h0, hx]
      rfl
    rw [h, backtrack_succ_succ_added [""] ["x"] 0 0 (by decide) (by simp [lcsTable]),
      backtrack_succ_zero, backtrack_zero_zero]
    simp

/-- C8 amended: the degenerate cases hold at the line-sequence level, where
`computeLCS` receives the (possibly empty) sequences directly: two empty
sequences yield an empty edit script, an empty old sequence yields an
entirely-`added` script, and an empty new sequence yields an
entirely-`removed` script.  (`ComputeLineDiff` itself never passes empty
sequences: Go's `strings.Split` maps the empty text to `[""]`.) -/
theorem computeLCS_degenerate :
    computeLCS [] [] = [] ∧
    (∀ ns : List String, (computeLCS [] ns).all (fun c => c.type == "added") = true) ∧
    (∀ os : List String, (computeLCS os []).all (fun c => c.type == "removed") = true) := by
  have hnew : ∀ (ns : List String) (j : Nat),
      (backtrack [] ns 0 j).all (fun c => c.type == "added") = true := by
    intro ns j
    induction j with
    | zero =>
      rw [backtrack_zero_zero]
      rfl
    | succ j ih =>
      rw [backtrack_zero_succ, List.all_append, ih]
      rfl
  have hold : ∀ (os : List String) (i : Nat),
      (backtrack os [] i 0).all (fun c => c.type == "removed") = true := by
    intro os i
    induction i with
    | zero =>
      rw [backtrack_zero_zero]
      rfl
    | succ i ih =>
      rw [backtrack_succ_zero, List.all_append, ih]
      rfl
  refine ⟨?_, fun ns => hnew ns ns.length, fun os => hold os os.length⟩
  show backtrack [] [] 0 0 = []
  exact backtrack_zero_zero [] []

/-- C5: the single-line classifier applies its rules in the fixed
precedence order on the whitespace-trimmed line — in particular
`"# Heading 1"` is `h1`, `"- [ ] task"` and `"- [x] done"` are `checkbox`
(not `unordered_list`), `"1. item"` is `ordered_list`, `"* bullet"` is
`unordered_list`, `"Regular text"` is `paragraph` — and a line that is
empty after trimming yields no block at the caller: `ParseLine` returns
`none`. -/
theorem DetectNotionSyntax_precedence (line : String) (h : trimSpace line = "") :
    DetectNotionSyntax "# Heading 1" = "h1" ∧
    DetectNotionSyntax "- [ ] task" = "checkbox" ∧
    DetectNotionSyntax "- [x] done" = "checkbox" ∧
    DetectNotionSyntax "1. item" = "ordered_list" ∧
    DetectNotionSyntax "* bullet" = "unordered_list" ∧
    DetectNotionSyntax "Regular text" = "paragraph" ∧
    ∀ (md5hex : String → String)
      (renderAndExtract : String → Except String (String × Snapshot))
      (lineNumber : Int),
      ParseLine md5hex renderAndExtract line lineNumber = none := by
  refine ⟨by decide, by decide, by decide, by decide, by decide, by decide, ?_⟩
  intro md5hex renderAndExtract lineNumber
  unfold ParseLine
  rw [h]
  rfl

theorem DetectNotionSyntax_precedence_witness :
    ParseLine (fun _ => "") (fun _ => .error "") "   " 1 = none :=
  (DetectNotionSyntax_precedence "   " (by decide)).2.2.2.2.2.2
    (fun _ => "") (fun _ => .error "") 1

/-- C10: `ParseIncremental` ignores its `blockID` argument and returns
exactly `Parse` of the content, for every behaviour of the goldmark
pipeline — the incremental entry point is observationally equivalent to a
full parse. -/
theorem ParseIncremental_eq_Parse
    (renderAndExtract : String → Except String (String × Snapshot))
    (content blockID : String) :
    ParseIncremental renderAndExtract content blockID = Parse renderAndExtract content := rfl

/-- Unfolding of one step of the dispatch loop. -/
theorem broadcastClients_cons (documentID data : String) (c0 : Client) (rest : List Client) :
    broadcastClients documentID data (c0 :: rest) =
      if c0.subscribedDocuments.contains documentID then
        if c0.sendBuf.length < c0.sendCap then
          ({ c0 with sendBuf := c0.sendBuf ++ [data] } ::
              (broadcastClients documentID data rest).1,
            (broadcastClients documentID data rest).2)
        else
          ((broadcastClients documentID data rest).1,
            { c0 with closed := true } :: (broadcastClients documentID data rest).2)
      else
        (c0 :: (broadcastClients documentID data rest).1,
          (broadcastClients documentID data rest).2) := rfl

/-- Every survivor of the dispatch loop descends from a live client that
was either not subscribed or had buffer space. -/
theorem broadcastClients_kept (documentID data : String) (l : List Client) :
    ∀ c' ∈ (broadcastClients documentID data l).1, ∃ c ∈ l, c'.id = c.id ∧
      (c.subscribedDocuments.contains documentID = false ∨
        c.sendBuf.length < c.sendCap) := by
  induction l with
  | nil =>
    intro c' hc'
    simp [broadcastClients] at hc'
  | cons c0 rest ih =>
    intro c' hc'
    rw [broadcastClients_cons] at hc'
    by_cases hsub : c0.subscribedDocuments.contains documentID = true
    · rw [if_pos hsub] at hc'
      by_cases hsp : c0.sendBuf.length < c0.sendCap
      · rw [if_pos hsp] at hc'
        rcases List.mem_cons.mp hc' with rfl | hmem
        · exact ⟨c0, List.mem_cons_self _ _, rfl, Or.inr hsp⟩
        · obtain ⟨c, hc, h1, h2⟩ := ih c' hmem
          exact ⟨c, List.mem_cons_of_mem _ hc, h1, h2⟩
      · rw [if_neg hsp] at hc'
        obtain ⟨c, hc, h1, h2⟩ := ih c' hc'
        exact ⟨c, List.mem_cons_of_mem _ hc, h1, h2⟩
    · rw [if_neg hsub] at hc'
      rcases List.mem_cons.mp hc' with rfl | hmem
      · exact ⟨c', List.mem_cons_self _ _, rfl, Or.inl (by simpa using hsub)⟩
      · obtain ⟨c, hc, h1, h2⟩ := ih c' hmem
        exact ⟨c, List.mem_cons_of_mem _ hc, h1, h2⟩

/-- Every subscribed live client with buffer space receives the payload in
the same dispatch. -/
theorem broadcastClients_delivers (documentID data : String) (l : List Client) :
    ∀ c ∈ l, c.subscribedDocuments.contains documentID = true →
      c.sendBuf.length < c.sendCap →
      { c with sendBuf := c.sendBuf ++ [data] } ∈ (broadcastClients documentID data l).1 := by
  induction l with
  | nil => simp
  | cons c0 rest ih =>
    intro c hc hsubc hspc
    rw [broadcastClients_cons]
    rcases List.mem_cons.mp hc with rfl | hmem
    · rw [if_pos hsubc, if_pos hspc]
      exact List.mem_cons_self _ _
    · by_cases hsub : c0.subscribedDocuments.contains documentID = true
      · by_cases hsp : c0.sendBuf.length < c0.sendCap
        · rw [if_pos hsub, if_pos hsp]
          exact List.mem_cons_of_mem _ (ih c hmem hsubc hspc)
        · rw [if_pos hsub, if_neg hsp]
          exact ih c hmem hsubc hspc
      · rw [if_neg hsub]
        exact List.mem_cons_of_mem _ (ih c hmem hsubc hspc)

/-- Every subscribed live client with a full buffer is closed and appears
among the dropped connections. -/
theorem broadcastClients_drops (documentID data : String) (l : List Client) :
    ∀ c ∈ l, c.subscribedDocuments.contains documentID = true →
      ¬ c.sendBuf.length < c.sendCap →
      { c with closed := true } ∈ (broadcastClients documentID data l).2 := by
  induction l with
  | nil => simp
  | cons c0 rest ih =>
    intro c hc hsubc hfullc
    rw [broadcastClients_cons]
    rcases List.mem_cons.mp hc with rfl | hmem
    · rw [if_pos hsubc, if_neg hfullc]
      exact List.mem_cons_self _ _
    · by_cases hsub : c0.subscribedDocuments.contains documentID = true
      · by_cases hsp : c0.sendBuf.length < c0.sendCap
        · rw [if_pos hsub, if_pos hsp]
          exact ih c hmem hsubc hfullc
        · rw [if_pos hsub, if_neg hsp]
          exact List.mem_cons_of_mem _ (ih c hmem hsubc hfullc)
      · rw [if_neg hsub]
        exact ih c hmem hsubc hfullc

/-- C4: when a dispatch to a document meets a subscribed connection whose
bounded outbound buffer is full, that connection is closed and removed from
the live set within this same dispatch, it is left subscribed to nothing
(the hub derives a document's subscribers from the live set, so the dropped
handle is a subscriber of no document), and every other subscribed
connection with buffer space still receives the payload in this same
dispatch. -/
theorem Dispatch_backpressure (h : Hub) (documentID data : String) (slow : Client)
    (hnodup : (h.clients.map Client.id).Nodup)
    (hmem : slow ∈ h.clients)
    (hsub : slow.subscribedDocuments.contains documentID = true)
    (hfull : ¬ slow.sendBuf.length < slow.sendCap) :
    (∀ c ∈ (broadcastToDocument h documentID data).1.clients, c.id ≠ slow.id) ∧
    ({ slow with closed := true } ∈ (broadcastToDocument h documentID data).2) ∧
    (∀ d, ∀ c ∈ (broadcastToDocument h documentID data).1.subscribers d, c.id ≠ slow.id) ∧
    (∀ other ∈ h.clients, other.id ≠ slow.id →
      other.subscribedDocuments.contains documentID = true →
      other.sendBuf.length < other.sendCap →
      { other with sendBuf := other.sendBuf ++ [data] } ∈
        (broadcastToDocument h documentID data).1.clients) := by
  have hpart1 : ∀ c ∈ (broadcastClients documentID data h.clients).1, c.id ≠ slow.id := by
    intro c' hc' heq
    obtain ⟨c, hc, hid, hcase⟩ := broadcastClients_kept documentID data h.clients c' hc'
    have hcs : c = slow :=
      List.inj_on_of_nodup_map hnodup hc hmem (by rw [← hid, heq])
    subst hcs
    rcases hcase with hfalse | hsp
    · rw [hsub] at hfalse
      cases hfalse
    · exact hfull hsp
  refine ⟨hpart1, broadcastClients_drops documentID data h.clients slow hmem hsub hfull,
    ?_, ?_⟩
  · intro d c hc
    exact hpart1 c (List.mem_of_mem_filter hc)
  · intro other hother hne hsubo hspo
    exact broadcastClients_delivers documentID data h.clients other hother hsubo hspo

theorem Dispatch_backpressure_witness :
    ((broadcastToDocument ⟨[demoSlow, demoFast]⟩ "doc1" "payload").1.clients.all
      (fun c => c.id != 1)) = true := by
  have h := (Dispatch_backpressure ⟨[demoSlow, demoFast]⟩ "doc1" "payload" demoSlow
    (by decide) (by decide) (by decide) (by decide)).1
  exact List.all_eq_true.mpr (fun c hc => by simpa [demoSlow] using h c hc)

theorem ABlock.erase_mk (a : Nat) (i t : String) (lv : Int) (c h : String)
    (p : Position) (cs : List ABlock) :
    (ABlock.mk a i t lv c h p cs).erase = ⟨i, t, lv, c, h, p, cs.map ABlock.erase⟩ := by
  rw [ABlock.erase]
  simp

theorem ABlock.addrList_mk (a : Nat) (i t : String) (lv : Int) (c h : String)
    (p : Position) (cs : List ABlock) :
    (ABlock.mk a i t lv c h p cs).addrList = a :: (cs.map ABlock.addrList).flatten := by
  rw [ABlock.addrList]
  simp

theorem ABlock.setContentAt_mk (x : Nat) (str : String) (a : Nat) (i t : String)
    (lv : Int) (c h : String) (p : Position) (cs : List ABlock) :
    ABlock.setContentAt x str (ABlock.mk a i t lv c h p cs) =
      ABlock.mk a i t lv (if a = x then str else c) h p
        (cs.map (ABlock.setContentAt x str)) := by
  rw [ABlock.setContentAt]
  simp

theorem copyBlocksAlloc_le (l : List ABlock) (ctr : Nat) :
    ctr ≤ (copyBlocksAlloc l ctr).2 := by
  match l with
  | [] => simp [copyBlocksAlloc]
  | ABlock.mk a0 i t lv c h p cs :: rest =>
    have h1 := copyBlocksAlloc_le cs (ctr + 1)
    have h2 := copyBlocksAlloc_le rest (copyBlocksAlloc cs (ctr + 1)).2
    simp only [copyBlocksAlloc]
    omega
termination_by sizeOf l
decreasing_by
  all_goals simp
  all_goals omega

theorem copyBlocksAlloc_addrs (l : List ABlock) (ctr : Nat) :
    ∀ a ∈ ((copyBlocksAlloc l ctr).1.map ABlock.addrList).flatten, ctr ≤ a := by
  match l with
  | [] =>
    intro a ha
    simp [copyBlocksAlloc] at ha
  | ABlock.mk a0 i t lv c h p cs :: rest =>
    intro a ha
    have hle := copyBlocksAlloc_le cs (ctr + 1)
    have ih1 := copyBlocksAlloc_addrs cs (ctr + 1)
    have ih2 := copyBlocksAlloc_addrs rest (copyBlocksAlloc cs (ctr + 1)).2
    simp only [copyBlocksAlloc, List.map_cons, List.flatten_cons, ABlock.addrList_mk,
      List.mem_append, List.mem_cons] at ha
    rcases ha with (rfl | hmem) | hmem
    · exact le_rfl
    · exact le_trans (by omega) (ih1 a hmem)
    · exact le_trans (le_trans (by omega) hle) (ih2 a hmem)
termination_by sizeOf l
decreasing_by
  all_goals simp
  all_goals omega

theorem copyBlocksAlloc_erase (l : List ABlock) (ctr : Nat) :
    (copyBlocksAlloc l ctr).1.map ABlock.erase = l.map ABlock.erase := by
  match l with
  | [] => simp [copyBlocksAlloc]
  | ABlock.mk a0 i t lv c h p cs :: rest =>
    have ih1 := copyBlocksAlloc_erase cs (ctr + 1)
    have ih2 := copyBlocksAlloc_erase rest (copyBlocksAlloc cs (ctr + 1)).2
    simp only [copyBlocksAlloc, List.map_cons, ABlock.erase_mk, ih1, ih2]
termination_by sizeOf l
decreasing_by
  all_goals simp
  all_goals omega

theorem copyABlockAlloc_le (b : ABlock) (ctr : Nat) : ctr ≤ (copyABlockAlloc b ctr).2 := by
  match b with
  | ABlock.mk a0 i t lv c h p cs =>
    have h1 := copyBlocksAlloc_le cs (ctr + 1)
    simp only [copyABlockAlloc]
    omega

theorem copyABlockAlloc_addrs (b : ABlock) (ctr : Nat) :
    ∀ a ∈ (copyABlockAlloc b ctr).1.addrList, ctr ≤ a := by
  match b with
  | ABlock.mk a0 i t lv c h p cs =>
    intro a ha
    have ih := copyBlocksAlloc_addrs cs (ctr + 1)
    simp only [copyABlockAlloc, ABlock.addrList_mk, List.mem_cons] at ha
    rcases ha with rfl | hmem
    · exact le_rfl
    · exact le_trans (by omega) (ih a hmem)

theorem copyABlockAlloc_erase (b : ABlock) (ctr : Nat) :
    (copyABlockAlloc b ctr).1.erase = b.erase := by
  match b with
  | ABlock.mk a0 i t lv c h p cs =>
    simp only [copyABlockAlloc, ABlock.erase_mk, copyBlocksAlloc_erase]

theorem copySnapshotAlloc_le (s : List (String × ABlock)) (ctr : Nat) :
    ctr ≤ (copySnapshotAlloc s ctr).2 := by
  induction s generalizing ctr with
  | nil => simp [copySnapshotAlloc]
  | cons q rest ih =>
    obtain ⟨k, b⟩ := q
    have h1 := copyABlockAlloc_le b ctr
    have h2 := ih (copyABlockAlloc b ctr).2
    simp only [copySnapshotAlloc]
    omega

theorem copySnapshotAlloc_addrs (s : List (String × ABlock)) (ctr : Nat) :
    ∀ a ∈ snapAddrs (copySnapshotAlloc s ctr).1, ctr ≤ a := by
  induction s generalizing ctr with
  | nil =>
    intro a ha
    simp [copySnapshotAlloc, snapAddrs] at ha
  | cons q rest ih =>
    obtain ⟨k, b⟩ := q
    intro a ha
    have hle := copyABlockAlloc_le b ctr
    have ih2 := ih (copyABlockAlloc b ctr).2
    simp only [copySnapshotAlloc, snapAddrs, List.map_cons, List.flatten_cons,
      List.mem_append] at ha
    rcases ha with hmem | hmem
    · exact copyABlockAlloc_addrs b ctr a hmem
    · exact le_trans hle (ih2 a hmem)

theorem copySnapshotAlloc_erase (s : List (String × ABlock)) (ctr : Nat) :
    eraseSnap (copySnapshotAlloc s ctr).1 = eraseSnap s := by
  induction s generalizing ctr with
  | nil => simp [copySnapshotAlloc, eraseSnap]
  | cons q rest ih =>
    obtain ⟨k, b⟩ := q
    simp only [copySnapshotAlloc, eraseSnap, List.map_cons, copyABlockAlloc_erase]
    have ih2 := ih (copyABlockAlloc b ctr).2
    simp only [eraseSnap] at ih2
    rw [ih2]

theorem setContentAt_not_mem (x : Nat) (str : String) (b : ABlock)
    (h : x ∉ b.addrList) : ABlock.setContentAt x str b = b := by
  match b with
  | ABlock.mk a0 i t lv c h0 p cs =>
    rw [ABlock.addrList_mk] at h
    simp only [List.mem_cons, List.mem_flatten, List.mem_map, not_or] at h
    obtain ⟨hne, hch⟩ := h
    rw [ABlock.setContentAt_mk, if_neg (fun heq => hne heq.symm)]
    have hrec : ∀ y ∈ cs, ABlock.setContentAt x str y = y := by
      intro y hy
      apply setContentAt_not_mem
      intro hmem
      exact hch ⟨y.addrList, ⟨y, hy, rfl⟩, hmem⟩
    rw [List.map_congr_left hrec]
    simp
termination_by sizeOf b
decreasing_by
  have hs := List.sizeOf_lt_of_mem hy
  simp at hs ⊢
  omega

theorem setContentAtSnap_not_mem (x : Nat) (str : String) (s : List (String × ABlock))
    (h : x ∉ snapAddrs s) : setContentAtSnap x str s = s := by
  induction s with
  | nil => rfl
  | cons q rest ih =>
    obtain ⟨k, b⟩ := q
    simp only [snapAddrs, List.map_cons, List.flatten_cons, List.mem_append, not_or] at h
    obtain ⟨h1, h2⟩ := h
    simp only [setContentAtSnap, List.map_cons]
    rw [setContentAt_not_mem x str b h1]
    have ih2 := ih (by simpa [snapAddrs] using h2)
    simp only [setContentAtSnap] at ih2
    rw [ih2]

/-- C9: the baseline stored by the detector after a call — `copyBlocks` of
the new snapshot, modelled at the heap level by `copySnapshotAlloc`, which
allocates only fresh objects — is structurally equal to the caller's
snapshot (and, erased, is exactly the `copyBlocks` baseline the pure
`ComputeDiff` stores), occupies only addresses disjoint from the caller's
snapshot, and is therefore untouched by a later write through any pointer
of the caller's snapshot (block or descendant). -/
theorem copySnapshotAlloc_deep_copy (s : List (String × ABlock)) (n0 : Nat)
    (hs : ∀ a ∈ snapAddrs s, a < n0) :
    eraseSnap (copySnapshotAlloc s n0).1 = eraseSnap s ∧
    eraseSnap (copySnapshotAlloc s n0).1 = copyBlocks (eraseSnap s) ∧
    (∀ a ∈ snapAddrs (copySnapshotAlloc s n0).1, n0 ≤ a) ∧
    (∀ a ∈ snapAddrs s, ∀ str,
      setContentAtSnap a str (copySnapshotAlloc s n0).1 = (copySnapshotAlloc s n0).1) := by
  have h1 := copySnapshotAlloc_erase s n0
  have h3 := copySnapshotAlloc_addrs s n0
  refine ⟨h1, ?_, h3, ?_⟩
  · rw [copyBlocks_eq, h1]
  · intro a ha str
    apply setContentAtSnap_not_mem
    intro hmem
    have := h3 a hmem
    have := hs a ha
    omega

theorem copySnapshotAlloc_deep_copy_witness :
    eraseSnap (copySnapshotAlloc demoASnap 2).1 = eraseSnap demoASnap :=
  (copySnapshotAlloc_deep_copy demoASnap 2 (by
    intro a ha
    simp [snapAddrs, demoASnap, demoABlock, demoChildA, ABlock.addrList_mk] at ha
    omega)).1

end MarkdownParser
